import Mathlib

/-!
Verification of the ditherer repository: a shallow embedding of the
tone-map + ordered-dither fragment shader (src/shaders/image.ts and the
uniform-array variant of main_frag) and of the adjustment-state holder in
the Vue components (TypeGPU.vue and the TypeGPU variant embedded in the
uno.config.ts document), together with proofs about the claims of the
specification.

Shader arithmetic (WGSL f32) is modelled over the reals; buffer/state
arithmetic (JS numbers pushed to the uniform projection) is modelled over
the rationals so the state-holder theorems are decidable.
-/

namespace Ditherer

/-! ## WGSL scalar built-ins, real-valued -/

/-- WGSL `clamp(x, lo, hi)` on scalars: `min(max(x, lo), hi)`. -/
noncomputable def wclamp (x lo hi : ℝ) : ℝ := min (max x lo) hi

/-- WGSL `mix(a, b, t) = a * (1 - t) + b * t`. -/
noncomputable def wmix (a b t : ℝ) : ℝ := a * (1 - t) + b * t

/-- WGSL `step(edge, x)`: `1.0` when `edge ≤ x`, else `0.0`. -/
noncomputable def step (edge x : ℝ) : ℝ := if x < edge then 0 else 1

/-- The clamped ramp parameter of WGSL `smoothstep(lo, hi, x)`. -/
noncomputable def smoothstepT (lo hi x : ℝ) : ℝ :=
  wclamp ((x - lo) / (hi - lo)) 0 1

/-- WGSL `smoothstep(lo, hi, x) = t * t * (3 - 2 * t)` with the clamped `t`. -/
noncomputable def smoothstep (lo hi x : ℝ) : ℝ :=
  smoothstepT lo hi x * smoothstepT lo hi x * (3 - 2 * smoothstepT lo hi x)

/-! ## vec3f -/

/-- A WGSL `vec3f`, component-wise real-valued. -/
structure Vec3 where
  x : ℝ
  y : ℝ
  z : ℝ

/-- Component-wise `v * s` for a vector and a scalar. -/
noncomputable def vmul (v : Vec3) (s : ℝ) : Vec3 := ⟨v.x * s, v.y * s, v.z * s⟩

/-- Component-wise `v - s` for a vector and a scalar. -/
noncomputable def vsub (v : Vec3) (s : ℝ) : Vec3 := ⟨v.x - s, v.y - s, v.z - s⟩

/-- Component-wise `v + s` for a vector and a scalar. -/
noncomputable def vadd (v : Vec3) (s : ℝ) : Vec3 := ⟨v.x + s, v.y + s, v.z + s⟩

/-- WGSL `clamp` applied component-wise with scalar bounds. -/
noncomputable def clampV (v : Vec3) (lo hi : ℝ) : Vec3 :=
  ⟨wclamp v.x lo hi, wclamp v.y lo hi, wclamp v.z lo hi⟩

/-- WGSL `mix(a, b, t)` applied component-wise with a scalar weight. -/
noncomputable def mixV (a b : Vec3) (t : ℝ) : Vec3 :=
  ⟨wmix a.x b.x t, wmix a.y b.y t, wmix a.z b.z t⟩

/-- WGSL `pow(v, vec3f(e))` applied component-wise (real power). -/
noncomputable def powV (v : Vec3) (e : ℝ) : Vec3 :=
  ⟨v.x ^ e, v.y ^ e, v.z ^ e⟩

/-- WGSL `dot` for `vec3f`. -/
noncomputable def dotV (a b : Vec3) : ℝ := a.x * b.x + a.y * b.y + a.z * b.z

/-- `vec3f(s)`: the diagonal vector with all three components equal. -/
noncomputable def vec3all (s : ℝ) : Vec3 := ⟨s, s, s⟩

/-- The fixed perceptual luminance weights `vec3f(0.299, 0.587, 0.114)`. -/
noncomputable def lumWeights : Vec3 := ⟨0.299, 0.587, 0.114⟩

/-! ## Tone-map stages of `main_frag`

Each `let`-binding of the fragment shader becomes a definition of the same
name, parametrized by the four scalar adjustments and the sampled color. -/

/-- The four scalar adjustment uniforms read by the tone-map stages. -/
structure Tone where
  exposure : ℝ
  contrast : ℝ
  highlights : ℝ
  shadows : ℝ

/-- `inputLuminance = dot(color, vec3f(0.299, 0.587, 0.114))`. -/
noncomputable def inputLuminance (c : Vec3) : ℝ := dotV c lumWeights

/-- `normColor = clamp(color, vec3f(0.0), vec3f(1.0))`. -/
noncomputable def normColor (c : Vec3) : Vec3 := clampV c 0 1

/-- `exposureBiased = adjustments.exposure * 0.25`. -/
noncomputable def exposureBiased (p : Tone) : ℝ := p.exposure * 0.25

/-- `exposureColor = clamp(normColor * pow(2.0, exposureBiased), vec3f(0.0), vec3f(2.0))`. -/
noncomputable def exposureColor (p : Tone) (c : Vec3) : Vec3 :=
  clampV (vmul (normColor c) ((2 : ℝ) ^ exposureBiased p)) 0 2

/-- `exposureLuminance = clamp(inputLuminance * pow(2.0, exposureBiased), 0.0, 2.0)`. -/
noncomputable def exposureLuminance (p : Tone) (c : Vec3) : ℝ :=
  wclamp (inputLuminance c * (2 : ℝ) ^ exposureBiased p) 0 2

/-- `contrastColor = (exposureColor - vec3f(0.5)) * adjustments.contrast + vec3f(0.5)`. -/
noncomputable def contrastColor (p : Tone) (c : Vec3) : Vec3 :=
  vadd (vmul (vsub (exposureColor p c) 0.5) p.contrast) 0.5

/-- `contrastLuminance = (exposureLuminance - 0.5) * adjustments.contrast + 0.5`. -/
noncomputable def contrastLuminance (p : Tone) (c : Vec3) : ℝ :=
  (exposureLuminance p c - 0.5) * p.contrast + 0.5

/-- `contrastColorLuminance = dot(contrastColor, vec3f(0.299, 0.587, 0.114))`. -/
noncomputable def contrastColorLuminance (p : Tone) (c : Vec3) : ℝ :=
  dotV (contrastColor p c) lumWeights

/-- `highlightShift = adjustments.highlights - 1.0`. -/
noncomputable def highlightShift (p : Tone) : ℝ := p.highlights - 1

/-- `highlightBiased = select(highlightShift * 0.25, highlightShift, adjustments.highlights >= 1.0)`:
WGSL `select(f, t, cond)` returns `t` when `cond` holds. -/
noncomputable def highlightBiased (p : Tone) : ℝ :=
  if 1 ≤ p.highlights then highlightShift p else highlightShift p * 0.25

/-- `highlightFactor = 1.0 + highlightBiased * 0.5 * contrastColorLuminance`. -/
noncomputable def highlightFactor (p : Tone) (c : Vec3) : ℝ :=
  1 + highlightBiased p * 0.5 * contrastColorLuminance p c

/-- `highlightWeight = smoothstep(0.5, 1.0, contrastColorLuminance)`. -/
noncomputable def highlightWeight (p : Tone) (c : Vec3) : ℝ :=
  smoothstep 0.5 1 (contrastColorLuminance p c)

/-- `highlightLuminanceAdjust = contrastLuminance * highlightFactor`. -/
noncomputable def highlightLuminanceAdjust (p : Tone) (c : Vec3) : ℝ :=
  contrastLuminance p c * highlightFactor p c

/-- `highlightLuminance = mix(contrastLuminance, clamp(highlightLuminanceAdjust, 0.0, 1.0), highlightWeight)`. -/
noncomputable def highlightLuminance (p : Tone) (c : Vec3) : ℝ :=
  wmix (contrastLuminance p c) (wclamp (highlightLuminanceAdjust p c) 0 1)
    (highlightWeight p c)

/-- `highlightColor = mix(contrastColor, clamp(contrastColor * highlightFactor, vec3f(0.0), vec3f(1.0)), highlightWeight)`. -/
noncomputable def highlightColor (p : Tone) (c : Vec3) : Vec3 :=
  mixV (contrastColor p c)
    (clampV (vmul (contrastColor p c) (highlightFactor p c)) 0 1)
    (highlightWeight p c)

/-- `shadowWeight = 1.0 - contrastColorLuminance`. -/
noncomputable def shadowWeight (p : Tone) (c : Vec3) : ℝ :=
  1 - contrastColorLuminance p c

/-- `shadowAdjust = pow(highlightColor, vec3f(1.0 / adjustments.shadows))`. -/
noncomputable def shadowAdjust (p : Tone) (c : Vec3) : Vec3 :=
  powV (highlightColor p c) (1 / p.shadows)

/-- `shadowLuminanceAdjust = pow(highlightLuminance, 1.0 / adjustments.shadows)`. -/
noncomputable def shadowLuminanceAdjust (p : Tone) (c : Vec3) : ℝ :=
  highlightLuminance p c ^ (1 / p.shadows)

/-- `toneColor = mix(highlightColor, shadowAdjust, shadowWeight)`. -/
noncomputable def toneColor (p : Tone) (c : Vec3) : Vec3 :=
  mixV (highlightColor p c) (shadowAdjust p c) (shadowWeight p c)

/-- `mix(highlightLuminance, shadowLuminanceAdjust, shadowWeight)`: named
`grayscale` in the dither variant of the shader and `toneLuminance` in the
saturation variant; same expression in both. -/
noncomputable def toneLuminance (p : Tone) (c : Vec3) : ℝ :=
  wmix (highlightLuminance p c) (shadowLuminanceAdjust p c) (shadowWeight p c)

/-! ## Saturation variant of `main_frag` (second shader in image.ts) -/

/-- `finalToneColor = clamp(toneColor, vec3f(0.0), vec3f(1.0))`. -/
noncomputable def finalToneColor (p : Tone) (c : Vec3) : Vec3 :=
  clampV (toneColor p c) 0 1

/-- `grayscaleColor = vec3f(toneLuminance)`. -/
noncomputable def grayscaleColor (p : Tone) (c : Vec3) : Vec3 :=
  vec3all (toneLuminance p c)

/-- `finalColor = mix(grayscaleColor, finalToneColor, adjustments.saturation)`:
the rgb output of the saturation variant of `main_frag`. -/
noncomputable def finalColor (p : Tone) (saturation : ℝ) (c : Vec3) : Vec3 :=
  mixV (grayscaleColor p c) (finalToneColor p c) saturation

/-! ## Dither variant of `main_frag` (uniform threshold array)

The `Adjustments` uniform struct of TypeGPU.vue:
`{exposure, contrast, highlights, shadows : f32, orderedMatrixArray : array<f32, 100>, matrixWidth, matrixHeight : i32}`.
`fragCoord.x`/`fragCoord.y` pass through `i32(...)` in the shader; the
truncated integer pixel coordinates are taken as the `ℤ` inputs here. -/

/-- The full uniform block of the dither variant. -/
structure Adjustments where
  exposure : ℝ
  contrast : ℝ
  highlights : ℝ
  shadows : ℝ
  orderedMatrixArray : List ℝ
  matrixWidth : ℤ
  matrixHeight : ℤ

/-- The four tone-map scalars of the uniform block. -/
noncomputable def Adjustments.tone (a : Adjustments) : Tone :=
  ⟨a.exposure, a.contrast, a.highlights, a.shadows⟩

/-- `let x = i32(fragCoord.x) % adjustments.matrixWidth` — WGSL `%` on `i32`
is the truncating remainder, `Int.tmod`. -/
def ditherX (a : Adjustments) (fragX : ℤ) : ℤ := fragX.tmod a.matrixWidth

/-- `let y = i32(fragCoord.y) % adjustments.matrixHeight`. -/
def ditherY (a : Adjustments) (fragY : ℤ) : ℤ := fragY.tmod a.matrixHeight

/-- The flattened threshold index `adjustments.matrixWidth * y + x`. -/
def ditherIndex (a : Adjustments) (fragX fragY : ℤ) : ℤ :=
  a.matrixWidth * ditherY a fragY + ditherX a fragX

/-- `let bayerValue = adjustments.orderedMatrixArray[matrixWidth * y + x]`. -/
noncomputable def bayerValue (a : Adjustments) (fragX fragY : ℤ) : ℝ :=
  a.orderedMatrixArray.getD (ditherIndex a fragX fragY).toNat 0

/-- `step(bayerValue, grayscale)`, the common value of the three output
channels of the dither variant. -/
noncomputable def ditheredChannel (a : Adjustments) (c : Vec3) (fragX fragY : ℤ) : ℝ :=
  step (bayerValue a fragX fragY) (toneLuminance a.tone c)

/-- The rgb output `vec3f(step(bayerValue, grayscale))` of the dither variant
of `main_frag`. -/
noncomputable def main_frag (a : Adjustments) (c : Vec3) (fragX fragY : ℤ) : Vec3 :=
  vec3all (ditheredChannel a c fragX fragY)

/-! ## Adjustment state holder (TypeGPU.vue)

The GPU-visible projection of the uniform block, modelled over `ℚ` (JS
numbers written to f32/i32 fields), so that the state theorems are
decidable.  `adjustmentsBuffer.writePartial({[key]: value})` with a single
scalar key updates exactly that field; writes into the `i32` dimension
fields truncate toward zero (JS `ToInt32`). -/

/-- Truncation toward zero of a rational, the JS `ToInt32` conversion used
when a number is written to an `i32` uniform field (wraparound ignored:
the session only writes small values). -/
def toI32 (v : ℚ) : ℤ := v.num.tdiv (v.den : ℤ)

/-- The GPU-visible projection of the `Adjustments` uniform struct. -/
structure AdjustmentsBuf where
  exposure : ℚ
  contrast : ℚ
  highlights : ℚ
  shadows : ℚ
  orderedMatrixArray : List ℚ
  matrixWidth : ℤ
  matrixHeight : ℤ
deriving DecidableEq

/-- The keys accepted by `setBufferValue(key, value: number)`: the struct's
field names whose payload is a single number.  (The TS parameter type
`keyof typeof adjustmentsBuffer.dataType.propTypes` also names
`orderedMatrixArray`, whose payload is an array, not a number; string
arguments outside the struct's keys are rejected by the compiler and are
not representable.) -/
inductive FieldKey where
  | exposure
  | contrast
  | highlights
  | shadows
  | matrixWidth
  | matrixHeight
deriving DecidableEq

/-- `setBufferValue(key, value)`: `adjustmentsBuffer.writePartial({[key]: value})`,
a partial write of exactly the named field. -/
def setBufferValue (s : AdjustmentsBuf) (k : FieldKey) (v : ℚ) : AdjustmentsBuf :=
  match k with
  | .exposure => { s with exposure := v }
  | .contrast => { s with contrast := v }
  | .highlights => { s with highlights := v }
  | .shadows => { s with shadows := v }
  | .matrixWidth => { s with matrixWidth := toI32 v }
  | .matrixHeight => { s with matrixHeight := toI32 v }

/-- Read back one numeric field of the projection (i32 fields as rationals). -/
def readField (s : AdjustmentsBuf) (k : FieldKey) : ℚ :=
  match k with
  | .exposure => s.exposure
  | .contrast => s.contrast
  | .highlights => s.highlights
  | .shadows => s.shadows
  | .matrixWidth => (s.matrixWidth : ℚ)
  | .matrixHeight => (s.matrixHeight : ℚ)

/-- The `orderedMatrix` constant of TypeGPU.vue (integer cells; the init
write and every matrix push divide the cells by 16). -/
def orderedMatrix : List (List ℚ) :=
  [[0, 12, 3, 15], [8, 4, 11, 7], [2, 14, 1, 13], [10, 6, 9, 5]]

/-- `matrix[y]![x]! = value`: replace one cell of the in-memory matrix. -/
def setMatrixCell (m : List (List ℚ)) (r c : ℕ) (v : ℚ) : List (List ℚ) :=
  m.set r ((m.getD r []).set c v)

/-- `writePartial({orderedMatrixArray: updates})` with a list of
`{idx, value}` records: each listed index of the projected array is set. -/
def writePartialArray (proj : List ℚ) (updates : List (ℕ × ℚ)) : List ℚ :=
  updates.foldl (fun acc u => acc.set u.1 u.2) proj

/-- The matrix push of the uno.config.ts TypeGPU variant:
`matrix.flat().map((value, idx) => ({idx, value}))` into `writePartial`. -/
def pushMatrix (proj : List ℚ) (m : List (List ℚ)) : List ℚ :=
  writePartialArray proj m.flatten.enum

/-- The matrix push of TypeGPU.vue:
`matrix.flat().map((value, idx) => ({idx, value: value / 16}))`. -/
def pushMatrixDiv16 (proj : List ℚ) (m : List (List ℚ)) : List ℚ :=
  writePartialArray proj (m.flatten.map (fun v => v / 16)).enum

/-- The value shown in the matrix cell at row `r`, column `c`. -/
def cellAt (m : List (List ℚ)) (r c : ℕ) : ℚ := (m.getD r []).getD c 0

/-- The decrement button at `(r, c)`: disabled when the cell is `0`
(`:disabled="cell == 0"`), otherwise `matrix[y]![x]! -= 1`. -/
def decClick (m : List (List ℚ)) (r c : ℕ) : List (List ℚ) :=
  if cellAt m r c = 0 then m else setMatrixCell m r c (cellAt m r c - 1)

/-- The increment button at `(r, c)`: disabled when the cell equals
`matrixHeight * matrixWidth - 1` (with `matrixHeight = matrix.length` and
`matrixWidth = matrix[0].length`), otherwise `matrix[y]![x]! += 1`. -/
def incClick (m : List (List ℚ)) (r c : ℕ) : List (List ℚ) :=
  if cellAt m r c = ((m.length * (m.getD 0 []).length : ℕ) : ℚ) - 1 then m
  else setMatrixCell m r c (cellAt m r c + 1)

/-- The keys the `ADJUSTMENTS_CONTROLS` slider handlers pass to
`setBufferValue` (the `AdjustmentsKey` type of TypeGPU.vue, which excludes
the matrix fields). -/
inductive SliderKey where
  | exposure
  | contrast
  | highlights
  | shadows
deriving DecidableEq

/-- Embed a slider key into the setter's key type. -/
def SliderKey.toFieldKey : SliderKey → FieldKey
  | .exposure => .exposure
  | .contrast => .contrast
  | .highlights => .highlights
  | .shadows => .shadows

/-- The UI events of the TypeGPU.vue session after initialization: a slider
change, a matrix-cell number-input change, or a decrement/increment click. -/
inductive Op where
  | setScalar (k : SliderKey) (v : ℚ)
  | cellChange (r c : ℕ) (v : ℚ)
  | cellDec (r c : ℕ)
  | cellInc (r c : ℕ)

/-- The session state: the reactive `matrix` plus the GPU-visible projection. -/
structure Session where
  matrix : List (List ℚ)
  buf : AdjustmentsBuf

/-- One UI event applied to the session, exactly as the corresponding
handler in TypeGPU.vue performs it. -/
def applyOp (s : Session) (op : Op) : Session :=
  match op with
  | .setScalar k v => { s with buf := setBufferValue s.buf k.toFieldKey v }
  | .cellChange r c v =>
      let m := setMatrixCell s.matrix r c v
      { matrix := m,
        buf := { s.buf with orderedMatrixArray := pushMatrixDiv16 s.buf.orderedMatrixArray m } }
  | .cellDec r c =>
      let m := decClick s.matrix r c
      { matrix := m,
        buf := { s.buf with orderedMatrixArray := pushMatrixDiv16 s.buf.orderedMatrixArray m } }
  | .cellInc r c =>
      let m := incClick s.matrix r c
      { matrix := m,
        buf := { s.buf with orderedMatrixArray := pushMatrixDiv16 s.buf.orderedMatrixArray m } }

/-- The one-time full write in `onMounted`:
`adjustmentsBuffer.write({orderedMatrixArray: orderedMatrix.flat().map(n => n / 16), matrixHeight: 4, matrixWidth: 4, exposure: 1, contrast: 1, highlights: 1, shadows: 1})`.
The uniform array holds 100 f32 slots; the 84 slots past the 16 written
values keep the zero-initialized buffer contents. -/
def initialBuffer : AdjustmentsBuf :=
  { exposure := 1
    contrast := 1
    highlights := 1
    shadows := 1
    orderedMatrixArray := orderedMatrix.flatten.map (fun n => n / 16) ++ List.replicate 84 0
    matrixWidth := 4
    matrixHeight := 4 }

/-- The session right after `onMounted`. -/
def initSession : Session := { matrix := orderedMatrix, buf := initialBuffer }

/-- The shader-side view of the initial threshold array:
`orderedMatrix.flat().map(n => n / 16)` as reals. -/
noncomputable def bayerFlatR : List ℝ :=
  orderedMatrix.flatten.map (fun q => (q : ℝ) / 16)

/-- The shader-side uniform snapshot right after `onMounted`: defaults
`exposure = contrast = highlights = shadows = 1`, the canonical 4×4 Bayer
thresholds in the first 16 array slots, `matrixWidth = matrixHeight = 4`. -/
noncomputable def initAdjustmentsR : Adjustments :=
  { exposure := 1
    contrast := 1
    highlights := 1
    shadows := 1
    orderedMatrixArray := bayerFlatR ++ List.replicate 84 0
    matrixWidth := 4
    matrixHeight := 4 }

/-- The matrix-cell invariant: the cell holds an integer between `lo` and
`hi` (as a rational with denominator 1). -/
def cellIntIn (lo hi : ℤ) (q : ℚ) : Prop := q.den = 1 ∧ lo ≤ q.num ∧ q.num ≤ hi

instance (lo hi : ℤ) (q : ℚ) : Decidable (cellIntIn lo hi q) := by
  unfold cellIntIn
  infer_instance

/-- Every cell of the editor matrix holds an integer in `[0, 15]`. -/
def MatrixInv (m : List (List ℚ)) : Prop := ∀ q ∈ m.flatten, cellIntIn 0 15 q

instance (m : List (List ℚ)) : Decidable (MatrixInv m) := by
  unfold MatrixInv
  infer_instance

/-- Every per-cell value a matrix push writes to the projection — the cell
divided by 16 — lies in `[0, 15/16]`. -/
def PushBounds (m : List (List ℚ)) : Prop :=
  ∀ q ∈ m.flatten.map (fun v => v / 16), 0 ≤ q ∧ q ≤ 15 / 16

/-! ## Basic lemmas about the WGSL primitives -/

theorem wclamp_eq_self {x lo hi : ℝ} (h1 : lo ≤ x) (h2 : x ≤ hi) :
    wclamp x lo hi = x := by
  unfold wclamp
  rw [max_eq_left h1, min_eq_left h2]

theorem wmix_self (a t : ℝ) : wmix a a t = a := by
  unfold wmix
  ring

theorem wmix_one (a b : ℝ) : wmix a b 1 = b := by
  unfold wmix
  ring

theorem mixV_self (v : Vec3) (t : ℝ) : mixV v v t = v := by
  cases v
  simp [mixV, wmix_self]

theorem mixV_one (a b : Vec3) : mixV a b 1 = b := by
  cases b
  simp [mixV, wmix_one]

theorem vmul_one_eq (v : Vec3) : vmul v 1 = v := by
  cases v
  simp [vmul]

theorem clampV_eq_self {v : Vec3} {lo hi : ℝ}
    (hx1 : lo ≤ v.x) (hx2 : v.x ≤ hi) (hy1 : lo ≤ v.y) (hy2 : v.y ≤ hi)
    (hz1 : lo ≤ v.z) (hz2 : v.z ≤ hi) : clampV v lo hi = v := by
  cases v
  simp only [clampV]
  rw [wclamp_eq_self hx1 hx2, wclamp_eq_self hy1 hy2, wclamp_eq_self hz1 hz2]

/-! ## C2 — dither output is binary per channel -/

/-- C2: when the dithering stage is terminal, the three output channels of
`main_frag` are equal, each is `1.0` exactly when the luminance fed to the
dither compare is at least the looked-up threshold and `0.0` otherwise, and
no intermediate values occur. -/
theorem dither_output_binary (a : Adjustments) (c : Vec3) (fx fy : ℤ) :
    main_frag a c fx fy =
      vec3all (if bayerValue a fx fy ≤ toneLuminance a.tone c then 1 else 0) ∧
    (main_frag a c fx fy).x = (main_frag a c fx fy).y ∧
    (main_frag a c fx fy).y = (main_frag a c fx fy).z ∧
    ((main_frag a c fx fy).x = 0 ∨ (main_frag a c fx fy).x = 1) := by
  have hstep : ditheredChannel a c fx fy =
      if bayerValue a fx fy ≤ toneLuminance a.tone c then 1 else 0 := by
    unfold ditheredChannel step
    rcases lt_or_le (toneLuminance a.tone c) (bayerValue a fx fy) with h | h
    · rw [if_pos h, if_neg (not_le.mpr h)]
    · rw [if_neg (not_lt.mpr h), if_pos h]
  refine ⟨by rw [main_frag, hstep], rfl, rfl, ?_⟩
  unfold main_frag vec3all
  rw [hstep]
  rcases le_or_lt (bayerValue a fx fy) (toneLuminance a.tone c) with h | h
  · exact Or.inr (by rw [if_pos h])
  · exact Or.inl (by rw [if_neg (not_le.mpr h)])

/-! ## C4 — no runtime field-name validation in `setBufferValue` -/

/-- C4 counterexample: calling the scalar setter with the matrix-dimension
key `matrixWidth` does not fail and does not leave the projection
unchanged — it overwrites the projected `matrixWidth` (here `4 ↦ 5`). -/
theorem setBufferValue_matrixWidth_mutates :
    (setBufferValue initialBuffer .matrixWidth 5).matrixWidth ≠
      initialBuffer.matrixWidth := by
  decide

/-- C4 amended: `setBufferValue`'s key parameter is statically restricted to
the uniform struct's own field names, so unrecognized names are rejected at
compile time and no runtime `InvalidFieldError` exists; the matrix dimension
fields ARE settable through this path — writing one truncates the value to
`i32` and updates exactly that field, leaving every other field unchanged. -/
theorem setBufferValue_dimension_fields (s : AdjustmentsBuf) (v : ℚ) :
    (setBufferValue s .matrixWidth v).matrixWidth = toI32 v ∧
    (setBufferValue s .matrixWidth v).exposure = s.exposure ∧
    (setBufferValue s .matrixWidth v).contrast = s.contrast ∧
    (setBufferValue s .matrixWidth v).highlights = s.highlights ∧
    (setBufferValue s .matrixWidth v).shadows = s.shadows ∧
    (setBufferValue s .matrixWidth v).orderedMatrixArray = s.orderedMatrixArray ∧
    (setBufferValue s .matrixWidth v).matrixHeight = s.matrixHeight ∧
    (setBufferValue s .matrixHeight v).matrixHeight = toI32 v ∧
    (setBufferValue s .matrixHeight v).matrixWidth = s.matrixWidth :=
  ⟨rfl, rfl, rfl, rfl, rfl, rfl, rfl, rfl, rfl⟩

/-! ## C5 — scalar-field round trip -/

/-- C5: setting any scalar adjustment field to `v` makes the projected value
of that field exactly `v`, and leaves the projected values of every other
field (the other scalars, the threshold array, `matrixWidth`,
`matrixHeight`) unchanged. -/
theorem setField_roundtrip (s : AdjustmentsBuf) (v : ℚ) :
    ((setBufferValue s .exposure v).exposure = v ∧
     (setBufferValue s .exposure v).contrast = s.contrast ∧
     (setBufferValue s .exposure v).highlights = s.highlights ∧
     (setBufferValue s .exposure v).shadows = s.shadows ∧
     (setBufferValue s .exposure v).orderedMatrixArray = s.orderedMatrixArray ∧
     (setBufferValue s .exposure v).matrixWidth = s.matrixWidth ∧
     (setBufferValue s .exposure v).matrixHeight = s.matrixHeight) ∧
    ((setBufferValue s .contrast v).contrast = v ∧
     (setBufferValue s .contrast v).exposure = s.exposure ∧
     (setBufferValue s .contrast v).highlights = s.highlights ∧
     (setBufferValue s .contrast v).shadows = s.shadows ∧
     (setBufferValue s .contrast v).orderedMatrixArray = s.orderedMatrixArray ∧
     (setBufferValue s .contrast v).matrixWidth = s.matrixWidth ∧
     (setBufferValue s .contrast v).matrixHeight = s.matrixHeight) ∧
    ((setBufferValue s .highlights v).highlights = v ∧
     (setBufferValue s .highlights v).exposure = s.exposure ∧
     (setBufferValue s .highlights v).contrast = s.contrast ∧
     (setBufferValue s .highlights v).shadows = s.shadows ∧
     (setBufferValue s .highlights v).orderedMatrixArray = s.orderedMatrixArray ∧
     (setBufferValue s .highlights v).matrixWidth = s.matrixWidth ∧
     (setBufferValue s .highlights v).matrixHeight = s.matrixHeight) ∧
    ((setBufferValue s .shadows v).shadows = v ∧
     (setBufferValue s .shadows v).exposure = s.exposure ∧
     (setBufferValue s .shadows v).contrast = s.contrast ∧
     (setBufferValue s .shadows v).highlights = s.highlights ∧
     (setBufferValue s .shadows v).orderedMatrixArray = s.orderedMatrixArray ∧
     (setBufferValue s .shadows v).matrixWidth = s.matrixWidth ∧
     (setBufferValue s .shadows v).matrixHeight = s.matrixHeight) :=
  ⟨⟨rfl, rfl, rfl, rfl, rfl, rfl, rfl⟩, ⟨rfl, rfl, rfl, rfl, rfl, rfl, rfl⟩,
   ⟨rfl, rfl, rfl, rfl, rfl, rfl, rfl⟩, ⟨rfl, rfl, rfl, rfl, rfl, rfl, rfl⟩⟩

/-! ## C7 — totality: index bounds and nonzero divisor -/

/-- C7: under the preconditions `shadows > 0`, `matrixWidth ≥ 1`,
`matrixHeight ≥ 1` and `matrixWidth * matrixHeight ≤ 100` (the uniform
array length), the divisor of the shadow-stage exponents is nonzero and the
threshold index `matrixWidth * (y mod matrixHeight) + (x mod matrixWidth)`
is within the array bounds for all non-negative pixel coordinates, so the
per-pixel function is total there. -/
theorem tone_dither_total (a : Adjustments) (fx fy : ℤ)
    (hs : 0 < a.shadows) (hw : 1 ≤ a.matrixWidth) (hh : 1 ≤ a.matrixHeight)
    (hwh : a.matrixWidth * a.matrixHeight ≤ 100)
    (hlen : a.orderedMatrixArray.length = 100)
    (hx : 0 ≤ fx) (hy : 0 ≤ fy) :
    a.shadows ≠ 0 ∧
    0 ≤ ditherIndex a fx fy ∧
    ditherIndex a fx fy < a.matrixWidth * a.matrixHeight ∧
    (ditherIndex a fx fy).toNat < a.orderedMatrixArray.length := by
  have hw0 : (0 : ℤ) < a.matrixWidth := lt_of_lt_of_le one_pos hw
  have hh0 : (0 : ℤ) < a.matrixHeight := lt_of_lt_of_le one_pos hh
  have hxm : ditherX a fx = fx % a.matrixWidth :=
    Int.tmod_eq_emod hx (le_of_lt hw0)
  have hym : ditherY a fy = fy % a.matrixHeight :=
    Int.tmod_eq_emod hy (le_of_lt hh0)
  have hx1 : 0 ≤ ditherX a fx := by
    rw [hxm]; exact Int.emod_nonneg fx (ne_of_gt hw0)
  have hx2 : ditherX a fx < a.matrixWidth := by
    rw [hxm]; exact Int.emod_lt_of_pos fx hw0
  have hy1 : 0 ≤ ditherY a fy := by
    rw [hym]; exact Int.emod_nonneg fy (ne_of_gt hh0)
  have hy2 : ditherY a fy < a.matrixHeight := by
    rw [hym]; exact Int.emod_lt_of_pos fy hh0
  have hidx0 : 0 ≤ ditherIndex a fx fy := by
    unfold ditherIndex
    have := mul_nonneg (le_of_lt hw0) hy1
    linarith
  have hidx1 : ditherIndex a fx fy < a.matrixWidth * a.matrixHeight := by
    unfold ditherIndex
    have h1 : a.matrixWidth * ditherY a fy ≤ a.matrixWidth * (a.matrixHeight - 1) :=
      mul_le_mul_of_nonneg_left (by omega) (le_of_lt hw0)
    have h2 : a.matrixWidth * (a.matrixHeight - 1) = a.matrixWidth * a.matrixHeight - a.matrixWidth := by
      ring
    omega
  refine ⟨ne_of_gt hs, hidx0, hidx1, ?_⟩
  rw [hlen]
  omega

/-- C7 witness: the bounds hold at a concrete uniform snapshot and pixel. -/
theorem tone_dither_total_witness :
    (⟨1, 1, 1, 1, List.replicate 100 (0 : ℝ), 4, 4⟩ : Adjustments).shadows ≠ 0 ∧
    0 ≤ ditherIndex ⟨1, 1, 1, 1, List.replicate 100 (0 : ℝ), 4, 4⟩ 7 9 ∧
    ditherIndex ⟨1, 1, 1, 1, List.replicate 100 (0 : ℝ), 4, 4⟩ 7 9 <
      (⟨1, 1, 1, 1, List.replicate 100 (0 : ℝ), 4, 4⟩ : Adjustments).matrixWidth *
      (⟨1, 1, 1, 1, List.replicate 100 (0 : ℝ), 4, 4⟩ : Adjustments).matrixHeight ∧
    (ditherIndex ⟨1, 1, 1, 1, List.replicate 100 (0 : ℝ), 4, 4⟩ 7 9).toNat <
      (⟨1, 1, 1, 1, List.replicate 100 (0 : ℝ), 4, 4⟩ : Adjustments).orderedMatrixArray.length :=
  tone_dither_total ⟨1, 1, 1, 1, List.replicate 100 (0 : ℝ), 4, 4⟩ 7 9
    (by norm_num) (by norm_num) (by norm_num) (by norm_num)
    (by simp) (by norm_num) (by norm_num)

/-! ## C8 — highlight-stage formulas and asymmetric bias -/

/-- C8: the highlights stage computes
`factor = 1 + bias * 0.5 * contrastColorLuminance` and blends with weight
`smoothstep(0.5, 1.0, contrastColorLuminance)`, where raising highlights by
`δ > 0` gives bias `δ` (the shift unchanged) while lowering by the same `δ`
gives bias `-(δ * 0.25)` — one quarter of the magnitude. -/
theorem highlight_stage_asymmetric (p : Tone) (c : Vec3) (δ : ℝ) (hδ : 0 < δ) :
    highlightFactor p c = 1 + highlightBiased p * 0.5 * contrastColorLuminance p c ∧
    highlightWeight p c = smoothstep 0.5 1 (contrastColorLuminance p c) ∧
    highlightBiased { p with highlights := 1 + δ } = δ ∧
    highlightBiased { p with highlights := 1 } = 0 ∧
    highlightBiased { p with highlights := 1 - δ } = -(δ * 0.25) := by
  refine ⟨rfl, rfl, ?_, ?_, ?_⟩
  · unfold highlightBiased highlightShift
    rw [if_pos (show (1 : ℝ) ≤ 1 + δ by linarith)]
    show 1 + δ - 1 = δ
    ring
  · unfold highlightBiased highlightShift
    rw [if_pos (show (1 : ℝ) ≤ 1 by norm_num)]
    show (1 : ℝ) - 1 = 0
    ring
  · unfold highlightBiased highlightShift
    rw [if_neg (show ¬ (1 : ℝ) ≤ 1 - δ by simp only [not_le]; linarith)]
    show (1 - δ - 1) * 0.25 = -(δ * 0.25)
    ring

/-- C8 witness: the highlight-stage facts at a concrete parameter set,
input color and offset `δ = 1`. -/
theorem highlight_stage_asymmetric_witness :
    highlightFactor ⟨1, 1, 1, 1⟩ ⟨0, 0, 0⟩ =
      1 + highlightBiased ⟨1, 1, 1, 1⟩ * 0.5 * contrastColorLuminance ⟨1, 1, 1, 1⟩ ⟨0, 0, 0⟩ ∧
    highlightWeight ⟨1, 1, 1, 1⟩ ⟨0, 0, 0⟩ =
      smoothstep 0.5 1 (contrastColorLuminance ⟨1, 1, 1, 1⟩ ⟨0, 0, 0⟩) ∧
    highlightBiased ⟨1, 1, 1 + 1, 1⟩ = 1 ∧
    highlightBiased ⟨1, 1, 1, 1⟩ = 0 ∧
    highlightBiased ⟨1, 1, 1 - 1, 1⟩ = -(1 * 0.25) :=
  highlight_stage_asymmetric ⟨1, 1, 1, 1⟩ ⟨0, 0, 0⟩ 1 (by norm_num)

/-! ## C10 — matrix dimensions constant after initialization -/

theorem applyOp_preserves_dims (s : Session) (op : Op) :
    (applyOp s op).buf.matrixWidth = s.buf.matrixWidth ∧
    (applyOp s op).buf.matrixHeight = s.buf.matrixHeight := by
  cases op with
  | setScalar k v => cases k <;> exact ⟨rfl, rfl⟩
  | cellChange r c v => exact ⟨rfl, rfl⟩
  | cellDec r c => exact ⟨rfl, rfl⟩
  | cellInc r c => exact ⟨rfl, rfl⟩

theorem foldl_preserves_dims (ops : List Op) : ∀ s : Session,
    (ops.foldl applyOp s).buf.matrixWidth = s.buf.matrixWidth ∧
    (ops.foldl applyOp s).buf.matrixHeight = s.buf.matrixHeight := by
  induction ops with
  | nil => exact fun s => ⟨rfl, rfl⟩
  | cons op ops ih =>
      intro s
      have h1 := applyOp_preserves_dims s op
      have h2 := ih (applyOp s op)
      simp only [List.foldl_cons]
      exact ⟨h2.1.trans h1.1, h2.2.trans h1.2⟩

/-- C10: after the one-time full initialization write (which sets
`matrixWidth = matrixHeight = 4`), no sequence of UI events — slider
changes, matrix-cell edits, increments or decrements — ever mutates the
projected matrix dimensions: every subsequent write is a partial
scalar-field write or a rewrite of the threshold array only. -/
theorem matrix_dims_constant (ops : List Op) :
    (ops.foldl applyOp initSession).buf.matrixWidth = 4 ∧
    (ops.foldl applyOp initSession).buf.matrixHeight = 4 :=
  foldl_preserves_dims ops initSession

/-! ## C6 — a cell edit lands at flattened index `r * matrixWidth + c` -/

theorem getD_set_self (l : List ℚ) (i : ℕ) (a : ℚ) (h : i < l.length) :
    (l.set i a).getD i 0 = a := by
  simp [List.getD, List.getElem?_set, h]

theorem getD_set_of_ne (l : List ℚ) {i j : ℕ} (a : ℚ) (h : i ≠ j) :
    (l.set i a).getD j 0 = l.getD j 0 := by
  simp [List.getD, List.getElem?_set_ne h]

theorem writePartialArray_getD_lt :
    ∀ (l : List ℚ) (proj : List ℚ) (n k : ℕ), k < n →
      (writePartialArray proj (List.enumFrom n l)).getD k 0 = proj.getD k 0
  | [], _, _, _, _ => rfl
  | v :: vs, proj, n, k, hk => by
      rw [List.enumFrom_cons]
      show (writePartialArray (proj.set n v) (List.enumFrom (n + 1) vs)).getD k 0 = _
      rw [writePartialArray_getD_lt vs (proj.set n v) (n + 1) k (Nat.lt_succ_of_lt hk)]
      exact getD_set_of_ne proj v (by omega)

theorem writePartialArray_getD :
    ∀ (l : List ℚ) (proj : List ℚ) (n i : ℕ), i < l.length → n + i < proj.length →
      (writePartialArray proj (List.enumFrom n l)).getD (n + i) 0 = l.getD i 0
  | [], _, _, i, hi, _ => absurd hi (by simp)
  | v :: vs, proj, n, 0, _, hp => by
      rw [List.enumFrom_cons]
      show (writePartialArray (proj.set n v) (List.enumFrom (n + 1) vs)).getD (n + 0) 0 = _
      rw [writePartialArray_getD_lt vs (proj.set n v) (n + 1) (n + 0) (by omega)]
      show (proj.set n v).getD n 0 = (v :: vs).getD 0 0
      rw [getD_set_self proj n v (by omega), List.getD_cons_zero]
  | v :: vs, proj, n, i + 1, hi, hp => by
      rw [List.enumFrom_cons]
      show (writePartialArray (proj.set n v) (List.enumFrom (n + 1) vs)).getD (n + (i + 1)) 0 = _
      have h1 : n + (i + 1) = (n + 1) + i := by omega
      rw [h1, writePartialArray_getD vs (proj.set n v) (n + 1) i
        (by simpa using Nat.lt_of_succ_lt_succ (by simpa using hi))
        (by rw [List.length_set]; omega)]
      rw [List.getD_cons_succ]

theorem flatten_length_of_rect :
    ∀ (m : List (List ℚ)) (W : ℕ), (∀ row ∈ m, row.length = W) →
      m.flatten.length = m.length * W
  | [], _, _ => by simp
  | row :: rest, W, hrect => by
      have h1 := hrect row (List.mem_cons_self row rest)
      have h2 := flatten_length_of_rect rest W
        (fun r hr => hrect r (List.mem_cons_of_mem row hr))
      simp only [List.flatten_cons, List.length_append, List.length_cons, h1, h2]
      ring

theorem flatten_getD_of_rect :
    ∀ (m : List (List ℚ)) (W r c : ℕ), (∀ row ∈ m, row.length = W) →
      r < m.length → c < W →
      m.flatten.getD (r * W + c) 0 = (m.getD r []).getD c 0
  | [], _, r, _, _, hr, _ => absurd hr (by simp)
  | row :: rest, W, 0, c, hrect, _, hc => by
      have h1 : row.length = W := hrect row (List.mem_cons_self row rest)
      show (row ++ rest.flatten).getD (0 * W + c) 0 = _
      have h2 : 0 * W + c = c := by omega
      rw [h2, List.getD_append row rest.flatten 0 c (by omega)]
      rw [List.getD_cons_zero]
  | row :: rest, W, r + 1, c, hrect, hr, hc => by
      have h1 : row.length = W := hrect row (List.mem_cons_self row rest)
      have hW : (r + 1) * W = r * W + W := by ring
      show (row ++ rest.flatten).getD ((r + 1) * W + c) 0 = _
      rw [List.getD_append_right row rest.flatten 0 ((r + 1) * W + c) (by omega)]
      have h2 : (r + 1) * W + c - row.length = r * W + c := by omega
      rw [h2, flatten_getD_of_rect rest W r c
        (fun x hx => hrect x (List.mem_cons_of_mem row hx))
        (by simpa using Nat.lt_of_succ_lt_succ (by simpa using hr)) hc]
      rw [List.getD_cons_succ]

theorem setMatrixCell_rect (m : List (List ℚ)) (W : ℕ) (r c : ℕ) (v : ℚ)
    (hrect : ∀ row ∈ m, row.length = W) (hr : r < m.length) :
    ∀ row ∈ setMatrixCell m r c v, row.length = W := by
  intro row hrow
  rcases List.mem_or_eq_of_mem_set hrow with h | h
  · exact hrect row h
  · subst h
    rw [List.length_set]
    have hmem : m.getD r [] ∈ m := by
      rw [List.getD_eq_getElem m [] hr]
      exact List.getElem_mem hr
    exact hrect _ hmem

theorem setMatrixCell_getD_row (m : List (List ℚ)) (r c : ℕ) (v : ℚ)
    (hr : r < m.length) :
    (setMatrixCell m r c v).getD r [] = (m.getD r []).set c v := by
  unfold setMatrixCell
  simp [List.getD, List.getElem?_set, hr]

/-- C6: setting cell `(r, c)` of an in-range rectangular matrix to `v` and
re-flattening row-major places `v` at flattened index `r * matrixWidth + c`,
both in the flattened list itself and in the array pushed to the GPU-visible
projection by the matrix `@change` handler. -/
theorem setMatrixCell_flatten_index (m : List (List ℚ)) (proj : List ℚ)
    (W r c : ℕ) (v : ℚ)
    (hrect : ∀ row ∈ m, row.length = W) (hr : r < m.length) (hc : c < W)
    (hproj : m.length * W ≤ proj.length) :
    ((setMatrixCell m r c v).flatten).getD (r * W + c) 0 = v ∧
    (pushMatrix proj (setMatrixCell m r c v)).getD (r * W + c) 0 = v := by
  have hrect' := setMatrixCell_rect m W r c v hrect hr
  have hlen' : (setMatrixCell m r c v).length = m.length := List.length_set m r _
  have hrowlen : (m.getD r []).length = W := by
    have hmem : m.getD r [] ∈ m := by
      rw [List.getD_eq_getElem m [] hr]
      exact List.getElem_mem hr
    exact hrect _ hmem
  have hflat : ((setMatrixCell m r c v).flatten).getD (r * W + c) 0 = v := by
    rw [flatten_getD_of_rect (setMatrixCell m r c v) W r c hrect' (by omega) hc]
    rw [setMatrixCell_getD_row m r c v hr]
    exact getD_set_self (m.getD r []) c v (by omega)
  refine ⟨hflat, ?_⟩
  have hflen : (setMatrixCell m r c v).flatten.length = m.length * W := by
    rw [flatten_length_of_rect (setMatrixCell m r c v) W hrect', hlen']
  have hidx : r * W + c < m.length * W := by
    have ha : (r + 1) * W ≤ m.length * W := Nat.mul_le_mul_right W (by omega)
    have hb : (r + 1) * W = r * W + W := by ring
    omega
  unfold pushMatrix
  have henum : (setMatrixCell m r c v).flatten.enum =
      List.enumFrom 0 (setMatrixCell m r c v).flatten := rfl
  have h0 : r * W + c = 0 + (r * W + c) := by omega
  rw [henum, h0, writePartialArray_getD _ proj 0 (r * W + c) (by omega) (by omega)]
  exact hflat

/-- C6 witness: cell `(1, 2)` of the canonical matrix set to `9/2` lands at
flattened index `1 * 4 + 2 = 6`. -/
theorem setMatrixCell_flatten_index_witness :
    ((setMatrixCell orderedMatrix 1 2 (9 / 2)).flatten).getD (1 * 4 + 2) 0 = 9 / 2 ∧
    (pushMatrix (List.replicate 100 0) (setMatrixCell orderedMatrix 1 2 (9 / 2))).getD
      (1 * 4 + 2) 0 = 9 / 2 :=
  setMatrixCell_flatten_index orderedMatrix (List.replicate 100 0) 4 1 2 (9 / 2)
    (by decide) (by decide) (by decide) (by decide)

/-! ## Facts about `2^(1/4)`, the default exposure scale -/

theorem rpow_quarter_pos : 0 < (2 : ℝ) ^ ((1 : ℝ) / 4) :=
  Real.rpow_pos_of_pos (by norm_num) _

theorem one_lt_rpow_quarter : 1 < (2 : ℝ) ^ ((1 : ℝ) / 4) :=
  (Real.one_lt_rpow_iff_of_pos (by norm_num)).mpr
    (Or.inl ⟨by norm_num, by norm_num⟩)

theorem rpow_quarter_le_two : (2 : ℝ) ^ ((1 : ℝ) / 4) ≤ 2 := by
  have h : (2 : ℝ) ^ ((1 : ℝ) / 4) ≤ (2 : ℝ) ^ (1 : ℝ) :=
    (Real.rpow_le_rpow_left_iff (by norm_num)).mpr (by norm_num)
  rwa [Real.rpow_one] at h

theorem rpow_quarter_lt : (2 : ℝ) ^ ((1 : ℝ) / 4) < 15 / 8 := by
  by_contra hcon
  push_neg at hcon
  have h4 : ((2 : ℝ) ^ ((1 : ℝ) / 4)) ^ (4 : ℕ) = 2 := by
    rw [← Real.rpow_natCast ((2 : ℝ) ^ ((1 : ℝ) / 4)) 4,
      ← Real.rpow_mul (by norm_num : (0 : ℝ) ≤ 2),
      show (1 : ℝ) / 4 * ((4 : ℕ) : ℝ) = 1 by norm_num, Real.rpow_one]
  have hle : ((15 : ℝ) / 8) ^ (4 : ℕ) ≤ ((2 : ℝ) ^ ((1 : ℝ) / 4)) ^ (4 : ℕ) :=
    pow_le_pow_left₀ (by norm_num) hcon 4
  rw [h4] at hle
  norm_num at hle

theorem powV_one (v : Vec3) : powV v 1 = v := by
  cases v
  simp [powV, Real.rpow_one]

theorem vec3_mk_eq' {a b d : ℝ} (v : Vec3) (h1 : a = v.x) (h2 : b = v.y)
    (h3 : d = v.z) : Vec3.mk a b d = v := by
  cases v
  rw [h1, h2, h3]

/-! ## Mid-gray evaluation of the default pipeline

With the defaults `exposure = contrast = highlights = shadows = 1` the
tone-map sends mid-gray `(1/2, 1/2, 1/2)` to the uniform value
`2^(1/4) / 2 ≈ 0.5946` — a factor `2^(0.25)` brighter than the input. -/

theorem midgray_eval :
    toneColor ⟨1, 1, 1, 1⟩ ⟨1 / 2, 1 / 2, 1 / 2⟩ =
      vec3all (1 / 2 * (2 : ℝ) ^ ((1 : ℝ) / 4)) ∧
    toneLuminance ⟨1, 1, 1, 1⟩ ⟨1 / 2, 1 / 2, 1 / 2⟩ =
      1 / 2 * (2 : ℝ) ^ ((1 : ℝ) / 4) := by
  have hg0 : 0 ≤ 1 / 2 * (2 : ℝ) ^ ((1 : ℝ) / 4) := by
    have := rpow_quarter_pos
    linarith
  have hg1 : 1 / 2 * (2 : ℝ) ^ ((1 : ℝ) / 4) ≤ 1 := by
    have := rpow_quarter_le_two
    linarith
  have hg2 : 1 / 2 * (2 : ℝ) ^ ((1 : ℝ) / 4) ≤ 2 := by linarith
  have hEb : exposureBiased ⟨1, 1, 1, 1⟩ = 1 / 4 := by
    show (1 : ℝ) * 0.25 = 1 / 4
    norm_num
  have hL : inputLuminance ⟨1 / 2, 1 / 2, 1 / 2⟩ = 1 / 2 := by
    show (1 : ℝ) / 2 * 0.299 + 1 / 2 * 0.587 + 1 / 2 * 0.114 = 1 / 2
    norm_num
  have hnorm : normColor ⟨1 / 2, 1 / 2, 1 / 2⟩ = ⟨1 / 2, 1 / 2, 1 / 2⟩ :=
    clampV_eq_self (by norm_num : (0 : ℝ) ≤ 1 / 2) (by norm_num : (1 : ℝ) / 2 ≤ 1)
      (by norm_num : (0 : ℝ) ≤ 1 / 2) (by norm_num : (1 : ℝ) / 2 ≤ 1)
      (by norm_num : (0 : ℝ) ≤ 1 / 2) (by norm_num : (1 : ℝ) / 2 ≤ 1)
  have hec : exposureColor ⟨1, 1, 1, 1⟩ ⟨1 / 2, 1 / 2, 1 / 2⟩ =
      vec3all (1 / 2 * (2 : ℝ) ^ ((1 : ℝ) / 4)) := by
    unfold exposureColor
    rw [hEb, hnorm]
    have hvm : vmul ⟨1 / 2, 1 / 2, 1 / 2⟩ ((2 : ℝ) ^ ((1 : ℝ) / 4)) =
        vec3all (1 / 2 * (2 : ℝ) ^ ((1 : ℝ) / 4)) := rfl
    rw [hvm]
    exact clampV_eq_self hg0 hg2 hg0 hg2 hg0 hg2
  have hel : exposureLuminance ⟨1, 1, 1, 1⟩ ⟨1 / 2, 1 / 2, 1 / 2⟩ =
      1 / 2 * (2 : ℝ) ^ ((1 : ℝ) / 4) := by
    unfold exposureLuminance
    rw [hEb, hL]
    exact wclamp_eq_self hg0 hg2
  have hcc : contrastColor ⟨1, 1, 1, 1⟩ ⟨1 / 2, 1 / 2, 1 / 2⟩ =
      vec3all (1 / 2 * (2 : ℝ) ^ ((1 : ℝ) / 4)) := by
    unfold contrastColor
    rw [hec]
    show vadd (vmul (vsub (vec3all (1 / 2 * (2 : ℝ) ^ ((1 : ℝ) / 4))) 0.5) 1) 0.5 = _
    simp only [vadd, vmul, vsub, vec3all, Vec3.mk.injEq]
    refine ⟨by ring, by ring, by ring⟩
  have hcl : contrastLuminance ⟨1, 1, 1, 1⟩ ⟨1 / 2, 1 / 2, 1 / 2⟩ =
      1 / 2 * (2 : ℝ) ^ ((1 : ℝ) / 4) := by
    unfold contrastLuminance
    rw [hel]
    show (1 / 2 * (2 : ℝ) ^ ((1 : ℝ) / 4) - 0.5) * 1 + 0.5 = _
    ring
  have hbias : highlightBiased ⟨1, 1, 1, 1⟩ = 0 := by
    unfold highlightBiased highlightShift
    rw [if_pos (le_refl (1 : ℝ))]
    norm_num
  have hfac : highlightFactor ⟨1, 1, 1, 1⟩ ⟨1 / 2, 1 / 2, 1 / 2⟩ = 1 := by
    unfold highlightFactor
    rw [hbias]
    ring
  have hhc : highlightColor ⟨1, 1, 1, 1⟩ ⟨1 / 2, 1 / 2, 1 / 2⟩ =
      vec3all (1 / 2 * (2 : ℝ) ^ ((1 : ℝ) / 4)) := by
    unfold highlightColor
    rw [hcc, hfac, vmul_one_eq,
      clampV_eq_self hg0 hg1 hg0 hg1 hg0 hg1]
    exact mixV_self _ _
  have hhl : highlightLuminance ⟨1, 1, 1, 1⟩ ⟨1 / 2, 1 / 2, 1 / 2⟩ =
      1 / 2 * (2 : ℝ) ^ ((1 : ℝ) / 4) := by
    unfold highlightLuminance highlightLuminanceAdjust
    rw [hcl, hfac, mul_one, wclamp_eq_self hg0 hg1]
    exact wmix_self _ _
  have hsone : (1 : ℝ) / (⟨1, 1, 1, 1⟩ : Tone).shadows = 1 := by
    show (1 : ℝ) / 1 = 1
    norm_num
  have hsa : shadowAdjust ⟨1, 1, 1, 1⟩ ⟨1 / 2, 1 / 2, 1 / 2⟩ =
      vec3all (1 / 2 * (2 : ℝ) ^ ((1 : ℝ) / 4)) := by
    unfold shadowAdjust
    rw [hhc, hsone, powV_one]
  have hsl : shadowLuminanceAdjust ⟨1, 1, 1, 1⟩ ⟨1 / 2, 1 / 2, 1 / 2⟩ =
      1 / 2 * (2 : ℝ) ^ ((1 : ℝ) / 4) := by
    unfold shadowLuminanceAdjust
    rw [hhl, hsone, Real.rpow_one]
  constructor
  · unfold toneColor
    rw [hhc, hsa]
    exact mixV_self _ _
  · unfold toneLuminance
    rw [hhl, hsl]
    exact wmix_self _ _

/-! ## C1 — the defaults are not the identity; exposure 0 is neutral -/

/-- C1 counterexample: with the default parameters
`exposure = contrast = highlights = shadows = saturation = 1`, the
saturation-variant tone-map does NOT return mid-gray unchanged — the default
exposure bias `1 * 0.25` scales it by `2^(1/4)`. -/
theorem tonemap_defaults_not_identity :
    finalColor ⟨1, 1, 1, 1⟩ 1 ⟨1 / 2, 1 / 2, 1 / 2⟩ ≠ ⟨1 / 2, 1 / 2, 1 / 2⟩ := by
  have hg0 : 0 ≤ 1 / 2 * (2 : ℝ) ^ ((1 : ℝ) / 4) := by
    have := rpow_quarter_pos
    linarith
  have hg1 : 1 / 2 * (2 : ℝ) ^ ((1 : ℝ) / 4) ≤ 1 := by
    have := rpow_quarter_le_two
    linarith
  unfold finalColor finalToneColor grayscaleColor
  rw [midgray_eval.1, midgray_eval.2,
    clampV_eq_self hg0 hg1 hg0 hg1 hg0 hg1, mixV_one]
  intro hcontra
  have hx : 1 / 2 * (2 : ℝ) ^ ((1 : ℝ) / 4) = 1 / 2 := congrArg Vec3.x hcontra
  have h1 := one_lt_rpow_quarter
  linarith

/-- C1 amended: the per-pixel tone-map is the identity on colors with
channels in `[0, 1]` at the NEUTRAL parameters `exposure = 0` (bias
`0 * 0.25 = 0`, scale `2^0 = 1`) and `contrast = highlights = shadows =
saturation = 1`; the code's default `exposure = 1` instead applies a
`2^(1/4)` brightness scale. -/
theorem tonemap_neutral_identity (c : Vec3)
    (hx1 : 0 ≤ c.x) (hx2 : c.x ≤ 1) (hy1 : 0 ≤ c.y) (hy2 : c.y ≤ 1)
    (hz1 : 0 ≤ c.z) (hz2 : c.z ≤ 1) :
    finalColor ⟨0, 1, 1, 1⟩ 1 c = c := by
  have hpow : (2 : ℝ) ^ exposureBiased ⟨0, 1, 1, 1⟩ = 1 := by
    have hEb : exposureBiased ⟨0, 1, 1, 1⟩ = 0 := by
      show (0 : ℝ) * 0.25 = 0
      norm_num
    rw [hEb, Real.rpow_zero]
  have hLdef : inputLuminance c = c.x * 0.299 + c.y * 0.587 + c.z * 0.114 := rfl
  have hL1 : 0 ≤ inputLuminance c := by
    rw [hLdef]
    have a1 : 0 ≤ c.x * 0.299 := mul_nonneg hx1 (by norm_num)
    have a2 : 0 ≤ c.y * 0.587 := mul_nonneg hy1 (by norm_num)
    have a3 : 0 ≤ c.z * 0.114 := mul_nonneg hz1 (by norm_num)
    linarith
  have hL2 : inputLuminance c ≤ 1 := by
    rw [hLdef]
    have a1 : c.x * 0.299 ≤ 1 * 0.299 := mul_le_mul_of_nonneg_right hx2 (by norm_num)
    have a2 : c.y * 0.587 ≤ 1 * 0.587 := mul_le_mul_of_nonneg_right hy2 (by norm_num)
    have a3 : c.z * 0.114 ≤ 1 * 0.114 := mul_le_mul_of_nonneg_right hz2 (by norm_num)
    linarith
  have hnorm : normColor c = c := clampV_eq_self hx1 hx2 hy1 hy2 hz1 hz2
  have hec : exposureColor ⟨0, 1, 1, 1⟩ c = c := by
    unfold exposureColor
    rw [hpow, hnorm, vmul_one_eq]
    exact clampV_eq_self hx1 (by linarith) hy1 (by linarith) hz1 (by linarith)
  have hel : exposureLuminance ⟨0, 1, 1, 1⟩ c = inputLuminance c := by
    unfold exposureLuminance
    rw [hpow, mul_one]
    exact wclamp_eq_self hL1 (by linarith)
  have hcc : contrastColor ⟨0, 1, 1, 1⟩ c = c := by
    unfold contrastColor
    rw [hec]
    show vadd (vmul (vsub c 0.5) 1) 0.5 = c
    simp only [vadd, vmul, vsub]
    exact vec3_mk_eq' c (by ring) (by ring) (by ring)
  have hcl : contrastLuminance ⟨0, 1, 1, 1⟩ c = inputLuminance c := by
    unfold contrastLuminance
    rw [hel]
    show (inputLuminance c - 0.5) * 1 + 0.5 = inputLuminance c
    ring
  have hbias : highlightBiased ⟨0, 1, 1, 1⟩ = 0 := by
    unfold highlightBiased highlightShift
    rw [if_pos (le_refl (1 : ℝ))]
    norm_num
  have hfac : highlightFactor ⟨0, 1, 1, 1⟩ c = 1 := by
    unfold highlightFactor
    rw [hbias]
    ring
  have hhc : highlightColor ⟨0, 1, 1, 1⟩ c = c := by
    unfold highlightColor
    rw [hcc, hfac, vmul_one_eq, clampV_eq_self hx1 hx2 hy1 hy2 hz1 hz2]
    exact mixV_self _ _
  have hhl : highlightLuminance ⟨0, 1, 1, 1⟩ c = inputLuminance c := by
    unfold highlightLuminance highlightLuminanceAdjust
    rw [hcl, hfac, mul_one, wclamp_eq_self hL1 hL2]
    exact wmix_self _ _
  have hsone : (1 : ℝ) / (⟨0, 1, 1, 1⟩ : Tone).shadows = 1 := by
    show (1 : ℝ) / 1 = 1
    norm_num
  have hsa : shadowAdjust ⟨0, 1, 1, 1⟩ c = c := by
    unfold shadowAdjust
    rw [hhc, hsone, powV_one]
  have hsl : shadowLuminanceAdjust ⟨0, 1, 1, 1⟩ c = inputLuminance c := by
    unfold shadowLuminanceAdjust
    rw [hhl, hsone, Real.rpow_one]
  have htc : toneColor ⟨0, 1, 1, 1⟩ c = c := by
    unfold toneColor
    rw [hhc, hsa]
    exact mixV_self _ _
  have htl : toneLuminance ⟨0, 1, 1, 1⟩ c = inputLuminance c := by
    unfold toneLuminance
    rw [hhl, hsl]
    exact wmix_self _ _
  unfold finalColor finalToneColor grayscaleColor
  rw [htc, htl, clampV_eq_self hx1 hx2 hy1 hy2 hz1 hz2]
  exact mixV_one _ _

/-- C1 witness: the neutral-parameter identity at a concrete in-range color. -/
theorem tonemap_neutral_identity_witness :
    finalColor ⟨0, 1, 1, 1⟩ 1 ⟨1 / 4, 1 / 3, 3 / 4⟩ = ⟨1 / 4, 1 / 3, 3 / 4⟩ :=
  tonemap_neutral_identity ⟨1 / 4, 1 / 3, 3 / 4⟩
    (by norm_num) (by norm_num) (by norm_num) (by norm_num) (by norm_num) (by norm_num)

/-! ## C3 — mid-gray end-to-end at pixels (0,0) and (3,0) -/

/-- C3: for mid-gray input under default parameters and the canonical 4×4
Bayer matrix, the threshold looked up at pixel `(0,0)` is `0/16 = 0` and the
dithered output there is white `(1,1,1)`; the threshold at pixel `(3,0)` is
`15/16` and the output there is black `(0,0,0)`. -/
theorem midgray_bayer_endpoints :
    bayerValue initAdjustmentsR 0 0 = 0 ∧
    main_frag initAdjustmentsR ⟨1 / 2, 1 / 2, 1 / 2⟩ 0 0 = ⟨1, 1, 1⟩ ∧
    bayerValue initAdjustmentsR 3 0 = 15 / 16 ∧
    main_frag initAdjustmentsR ⟨1 / 2, 1 / 2, 1 / 2⟩ 3 0 = ⟨0, 0, 0⟩ := by
  have hb0 : bayerValue initAdjustmentsR 0 0 = ((0 : ℚ) : ℝ) / 16 := rfl
  have hb3 : bayerValue initAdjustmentsR 3 0 = ((15 : ℚ) : ℝ) / 16 := rfl
  have hb0' : bayerValue initAdjustmentsR 0 0 = 0 := by
    rw [hb0]
    norm_num
  have hb3' : bayerValue initAdjustmentsR 3 0 = 15 / 16 := by
    rw [hb3]
    norm_num
  have htone : initAdjustmentsR.tone = ⟨1, 1, 1, 1⟩ := rfl
  have hg0 : 0 < 1 / 2 * (2 : ℝ) ^ ((1 : ℝ) / 4) := by
    have := rpow_quarter_pos
    linarith
  have hg15 : 1 / 2 * (2 : ℝ) ^ ((1 : ℝ) / 4) < 15 / 16 := by
    have := rpow_quarter_lt
    linarith
  refine ⟨hb0', ?_, hb3', ?_⟩
  · unfold main_frag ditheredChannel
    rw [htone, midgray_eval.2, hb0']
    unfold step
    rw [if_neg (not_lt.mpr (le_of_lt hg0))]
    rfl
  · unfold main_frag ditheredChannel
    rw [htone, midgray_eval.2, hb3']
    unfold step
    rw [if_pos hg15]
    rfl

/-! ## C9 — increment/decrement clicks preserve the cell invariant -/

theorem cellAt_of_MatrixInv {m : List (List ℚ)} (hinv : MatrixInv m) (r c : ℕ) :
    cellIntIn 0 15 (cellAt m r c) := by
  unfold cellAt
  rcases Nat.lt_or_ge r m.length with hr | hr
  · have hmem : m.getD r [] ∈ m := by
      rw [List.getD_eq_getElem m [] hr]
      exact List.getElem_mem hr
    rcases Nat.lt_or_ge c (m.getD r []).length with hc | hc
    · have hq : (m.getD r []).getD c 0 ∈ m.getD r [] := by
        rw [List.getD_eq_getElem _ 0 hc]
        exact List.getElem_mem hc
      exact hinv _ (List.mem_flatten.mpr ⟨m.getD r [], hmem, hq⟩)
    · rw [List.getD_eq_default _ 0 hc]
      decide
  · rw [List.getD_eq_default m [] hr,
      List.getD_eq_default ([] : List ℚ) 0 (Nat.zero_le c)]
    decide

theorem MatrixInv_setMatrixCell {m : List (List ℚ)} {v : ℚ} (r c : ℕ)
    (hinv : MatrixInv m) (hv : cellIntIn 0 15 v) :
    MatrixInv (setMatrixCell m r c v) := by
  intro q hq
  rcases List.mem_flatten.mp hq with ⟨row, hrow, hqrow⟩
  rcases List.mem_or_eq_of_mem_set hrow with h | h
  · exact hinv q (List.mem_flatten.mpr ⟨row, h, hqrow⟩)
  · subst h
    rcases List.mem_or_eq_of_mem_set hqrow with h' | h'
    · rcases Nat.lt_or_ge r m.length with hr | hr
      · have hmem : m.getD r [] ∈ m := by
          rw [List.getD_eq_getElem m [] hr]
          exact List.getElem_mem hr
        exact hinv q (List.mem_flatten.mpr ⟨m.getD r [], hmem, h'⟩)
      · rw [List.getD_eq_default m [] hr] at h'
        exact absurd h' (List.not_mem_nil q)
    · subst h'
      exact hv

theorem cellIntIn_sub_one {q : ℚ} (h : cellIntIn 0 15 q) (h0 : q ≠ 0) :
    cellIntIn 0 15 (q - 1) := by
  obtain ⟨hden, hlo, hhi⟩ := h
  have hq : (q.num : ℚ) = q := (Rat.den_eq_one_iff q).mp hden
  have hne : q.num ≠ 0 := by
    intro h
    apply h0
    rw [← hq, h, Int.cast_zero]
  have heq : q - 1 = ((q.num - 1 : ℤ) : ℚ) := by
    push_cast
    rw [hq]
  rw [heq]
  exact ⟨Rat.den_intCast _, by rw [Rat.num_intCast]; omega,
    by rw [Rat.num_intCast]; omega⟩

theorem cellIntIn_add_one {q : ℚ} (h : cellIntIn 0 15 q) (h15 : q ≠ 15) :
    cellIntIn 0 15 (q + 1) := by
  obtain ⟨hden, hlo, hhi⟩ := h
  have hq : (q.num : ℚ) = q := (Rat.den_eq_one_iff q).mp hden
  have hne : q.num ≠ 15 := by
    intro h
    apply h15
    rw [← hq, h]
    norm_num
  have heq : q + 1 = ((q.num + 1 : ℤ) : ℚ) := by
    push_cast
    rw [hq]
  rw [heq]
  exact ⟨Rat.den_intCast _, by rw [Rat.num_intCast]; omega,
    by rw [Rat.num_intCast]; omega⟩

theorem PushBounds_of_MatrixInv {m : List (List ℚ)} (hinv : MatrixInv m) :
    PushBounds m := by
  intro q hq
  rcases List.mem_map.mp hq with ⟨v, hv, rfl⟩
  obtain ⟨hden, hlo, hhi⟩ := hinv v hv
  have hv' : (v.num : ℚ) = v := (Rat.den_eq_one_iff v).mp hden
  have h0 : (0 : ℚ) ≤ v := by
    rw [← hv']
    exact_mod_cast hlo
  have h15 : v ≤ 15 := by
    rw [← hv']
    exact_mod_cast hhi
  exact ⟨div_nonneg h0 (by norm_num),
    (div_le_div_iff_of_pos_right (by norm_num : (0 : ℚ) < 16)).mpr h15⟩

/-- C9: for the 4×4 editor matrix, a decrement click (disabled at cell 0)
and an increment click (disabled at cell `matrixWidth * matrixHeight - 1 = 15`)
preserve the invariant that every cell is an integer in `[0, 15]`, and the
per-cell values pushed to the GPU-visible projection — cell divided by 16 —
all stay in `[0, 15/16] ⊆ [0, 1)`. -/
theorem click_preserves_invariant (m : List (List ℚ)) (r c : ℕ)
    (hH : m.length = 4) (hrect : ∀ row ∈ m, row.length = 4)
    (hinv : MatrixInv m) :
    MatrixInv (decClick m r c) ∧ MatrixInv (incClick m r c) ∧
    PushBounds (decClick m r c) ∧ PushBounds (incClick m r c) := by
  have hrow0 : (m.getD 0 []).length = 4 := by
    have hmem : m.getD 0 [] ∈ m := by
      rw [List.getD_eq_getElem m [] (by omega)]
      exact List.getElem_mem (by omega)
    exact hrect _ hmem
  have hdec : MatrixInv (decClick m r c) := by
    unfold decClick
    split
    · exact hinv
    · exact MatrixInv_setMatrixCell r c hinv
        (cellIntIn_sub_one (cellAt_of_MatrixInv hinv r c) (by assumption))
  have hinc : MatrixInv (incClick m r c) := by
    unfold incClick
    split
    · exact hinv
    · rename_i hguard
      have hb : ((m.length * (m.getD 0 []).length : ℕ) : ℚ) - 1 = 15 := by
        rw [hH, hrow0]
        norm_num
      rw [hb] at hguard
      exact MatrixInv_setMatrixCell r c hinv
        (cellIntIn_add_one (cellAt_of_MatrixInv hinv r c) hguard)
  exact ⟨hdec, hinc, PushBounds_of_MatrixInv hdec, PushBounds_of_MatrixInv hinc⟩

/-- C9 witness: the invariant and push bounds hold after clicking the
decrement and increment buttons of cell `(0, 0)` of the canonical matrix. -/
theorem click_preserves_invariant_witness :
    MatrixInv (decClick orderedMatrix 0 0) ∧ MatrixInv (incClick orderedMatrix 0 0) ∧
    PushBounds (decClick orderedMatrix 0 0) ∧ PushBounds (incClick orderedMatrix 0 0) :=
  click_preserves_invariant orderedMatrix 0 0 (by decide) (by decide) (by decide)

end Ditherer
